import Mathlib

/-!
The package `toolspec`: validator, typed adapter and functional options.

A shallow embedding of `tool.go`, `typed_tool.go` and `result.go` of the
`toolspec` package, of `v1/location.go` and `v1/citable_document.go`, and of
`cleanHTMLWhitespace` of `example/http_request.go`, followed by the
properties established about them.

Conventions of the embedding.

* A Go `string` is its sequence of bytes (`GoString`).  String literals of the
  source are written `gostr "..."`, the UTF-8 bytes of the literal.
* `len(s)` of a string is its number of bytes; `for _, c := range s` yields the
  runes produced by UTF-8 decoding, with U+FFFD for every byte that does not
  start a well-formed encoding (`runes`).
* A Go `error` is `Option GoError`, `none` being `nil`.
* A pointer, map, slice or interface that may be `nil` is an `Option`.
* A call that dereferences `nil` panics (`Run.panic`).
-/

namespace Toolspec

/-! ## Go strings -/

/-- A Go `byte`. -/
abbrev Byte := UInt8

/-- A Go `string`: an arbitrary finite sequence of bytes. -/
abbrev GoString := List Byte

/-- The bytes of a Go string literal (Go source text is UTF-8). -/
def gostr (s : String) : GoString :=
  s.data.flatMap String.utf8EncodeChar

/-- The rune `utf8.RuneError`, U+FFFD. -/
def RuneError : Nat := 0xFFFD

/-- The width in bytes that a lead byte in `0xC2..0xF4` announces (the low
bits of Go's table `first`). -/
def leadSize (s0 : Nat) : Nat :=
  if s0 < 0xE0 then 2 else if s0 < 0xF0 then 3 else 4

/-- The least second byte accepted after the lead byte `s0` (`acceptRanges`,
field `lo`). -/
def acceptLo (s0 : Nat) : Nat :=
  if s0 = 0xE0 then 0xA0 else if s0 = 0xF0 then 0x90 else 0x80

/-- The greatest second byte accepted after the lead byte `s0`
(`acceptRanges`, field `hi`). -/
def acceptHi (s0 : Nat) : Nat :=
  if s0 = 0xED then 0x9F else if s0 = 0xF4 then 0x8F else 0xBF

/-- Go's `utf8.DecodeRuneInString`: the first rune of `s` and its width in
bytes.  A byte that does not start a well-formed encoding decodes to
`(RuneError, 1)`; the empty string decodes to `(RuneError, 0)`.  The masks
and shifts of the Go code are written with `%` and `*`:
`s0 & 0x1F = s0 % 32`, `s1 & 0x3F = s1 % 64`, `x << 6 = x * 64`, and the
or-ed parts occupy disjoint bits, so `|` is `+`.  The bytes are given by
their numeric values. -/
def decodeRune : List Nat → Nat × Nat
  | [] => (RuneError, 0)
  | s0 :: rest =>
    if s0 < 0x80 then (s0, 1)
    else if s0 < 0xC2 ∨ 0xF4 < s0 then (RuneError, 1)
    else if rest.length + 1 < leadSize s0 then (RuneError, 1)
    else
      match rest with
      | [] => (RuneError, 1)
      | s1 :: rest1 =>
        if s1 < acceptLo s0 ∨ acceptHi s0 < s1 then (RuneError, 1)
        else if leadSize s0 ≤ 2 then ((s0 % 32) * 64 + s1 % 64, 2)
        else
          match rest1 with
          | [] => (RuneError, 1)
          | s2 :: rest2 =>
            if s2 < 0x80 ∨ 0xBF < s2 then (RuneError, 1)
            else if leadSize s0 ≤ 3 then
              ((s0 % 16) * 4096 + (s1 % 64) * 64 + s2 % 64, 3)
            else
              match rest2 with
              | [] => (RuneError, 1)
              | s3 :: _ =>
                if s3 < 0x80 ∨ 0xBF < s3 then (RuneError, 1)
                else
                  ((s0 % 8) * 262144 + (s1 % 64) * 4096 + (s2 % 64) * 64
                    + s3 % 64, 4)

/-- The runes visited by `for _, char := range s`, started `skip` bytes before
the next rune boundary: at a boundary the rune at the current position is
decoded and the following `width - 1` bytes are passed over. -/
def rangeRunes : Nat → List Nat → List Nat
  | _, [] => []
  | 0, b :: bs =>
    (decodeRune (b :: bs)).1 :: rangeRunes ((decodeRune (b :: bs)).2 - 1) bs
  | k + 1, _ :: bs => rangeRunes k bs

/-- The runes of a Go string, in the order `range` yields them. -/
def runes (s : GoString) : List Nat := rangeRunes 0 (s.map UInt8.toNat)

/-! ## Errors and panics -/

/-- A Go `error` value: its message and, when it wraps another error
(`fmt.Errorf` with `%w`), the error that `errors.Unwrap` returns. -/
inductive GoError where
  | new (msg : GoString)
  | wrap (msg : GoString) (inner : GoError)
deriving DecidableEq

/-- The method `Error()`. -/
def GoError.Error : GoError → GoString
  | .new msg => msg
  | .wrap msg _ => msg

/-- The function `errors.Unwrap`. -/
def GoError.Unwrap : GoError → Option GoError
  | .new _ => none
  | .wrap _ inner => some inner

/-- The call `fmt.Errorf(format)` for a format without verbs. -/
def Errorf (format : String) : GoError := GoError.new (gostr format)

/-- The call `fmt.Errorf(lead + "%w", err)`: the message is `lead` followed by
`err.Error()`, and the result unwraps to `err`. -/
def ErrorfW (lead : String) (err : GoError) : GoError :=
  GoError.wrap (gostr lead ++ err.Error) err

/-- The outcome of running a Go function: it returns a value or panics. -/
inductive Run (α : Type) where
  | ret (a : α)
  | panic
deriving DecidableEq

/-! ## tool.go -/

/-- The struct `UI`. -/
structure UI where
  Verb : GoString
  LongRunning : Bool
deriving DecidableEq

/-- The struct `ToolSpec`.  `S` is the type of non-nil `map[string]interface{}`
values, so `Parameters = none` is the nil map.  The field `Type` of the
source is `Type_` here, `Type` being reserved. -/
structure ToolSpec (S : Type) where
  Name : GoString
  Type_ : GoString
  Description : GoString
  Parameters : Option S
  UI : UI
deriving DecidableEq

/-- The constant `maxToolNameLength`. -/
def maxToolNameLength : Nat := 64

/-- The condition of the `if` inside the loop of `validateSpec`, on a rune:
`a..z`, `A..Z`, `0..9`, `_` or `-`. -/
def isNameChar (char : Nat) : Bool :=
  (decide ('a'.toNat ≤ char) && decide (char ≤ 'z'.toNat)) ||
  (decide ('A'.toNat ≤ char) && decide (char ≤ 'Z'.toNat)) ||
  (decide ('0'.toNat ≤ char) && decide (char ≤ '9'.toNat)) ||
  decide (char = '_'.toNat) || decide (char = '-'.toNat)

/-- The loop `for _, char := range m.Name` of `validateSpec` over the runes
still to visit: `continue` on an allowed rune, `return` the error on the
first other one; `none` when the loop runs to its end. -/
def nameLoop : List Nat → Option GoError
  | [] => none
  | char :: rest =>
    if isNameChar char then nameLoop rest
    else some (Errorf
      "tool name must contain only alphanumeric characters, underscores, or hyphens")

/-- The function `validateSpec(m *ToolSpec) error`.  Reading `m.Name` through
a nil `m` panics. -/
def validateSpec {S : Type} : Option (ToolSpec S) → Run (Option GoError)
  | none => Run.panic
  | some m =>
    if m.Name = [] then
      Run.ret (some (Errorf "tool spec must include a non-empty name"))
    else if m.Name.length > maxToolNameLength then
      Run.ret (some (Errorf "tool name must not exceed 64 characters"))
    else
      match nameLoop (runes m.Name) with
      | some err => Run.ret (some err)
      | none =>
        if m.Description = [] then
          Run.ret (some (Errorf "tool spec description cannot be empty"))
        else if m.Parameters.isNone then
          Run.ret (some (Errorf "tool spec parameters cannot be nil"))
        else Run.ret none

/-- The interface `Tool`, as far as `Validate` uses it: the value its method
`Spec()` returns.  (`Execute` is modelled on the typed adapter below.) -/
structure Tool (S : Type) where
  Spec : Option (ToolSpec S)

/-- The function `Validate(t Tool) error`.  Calling `Spec()` on the nil
interface panics. -/
def Validate {S : Type} : Option (Tool S) → Run (Option GoError)
  | none => Run.panic
  | some t => validateSpec t.Spec

/-! ## result.go -/

/-- The struct `ToolResult` of `result.go`.  `Val` is the type of non-nil `any`
values, so `Output = none` is the nil interface; `Error = none` is the nil
`*string`. -/
structure ToolResult (Val : Type) where
  Name : GoString
  Output : Option Val
  Error : Option GoString
deriving DecidableEq

/-! ## typed_tool.go -/

/-- The type `json.RawMessage`, a `[]byte`; `none` is the nil slice. -/
abbrev RawMessage := Option (List Byte)

/-- The builtin `len` on a byte slice; the nil slice has length 0. -/
def len : RawMessage → Nat
  | none => 0
  | some bs => bs.length

/-- The type `func(context.Context, In) (Out, error)` of a handler.  A handler
may read and change the world outside the adapter, `W`; it returns both of
its results, as in Go. -/
abbrev Handler (Ctx W In Out : Type) :=
  Ctx → In → W → (Out × Option GoError) × W

/-- A call `Execute` makes to a collaborator, recorded in the order made. -/
inductive Call (Ctx In : Type) where
  | decode (params : RawMessage)
  | handler (ctx : Ctx) (input : In)
deriving DecidableEq

/-- The struct `TypedTool[In, Out]`; `spec = none` is the nil `*ToolSpec`. -/
structure TypedTool (S Ctx W In Out : Type) where
  spec : Option (ToolSpec S)
  handler : Handler Ctx W In Out

/-- The method `Spec()`. -/
def TypedTool.Spec {S Ctx W In Out : Type} (t : TypedTool S Ctx W In Out) :
    Option (ToolSpec S) :=
  t.spec

/-- The typed adapter as a value of the interface `Tool`. -/
def TypedTool.asTool {S Ctx W In Out : Type} (t : TypedTool S Ctx W In Out) :
    Tool S :=
  { Spec := t.Spec }

/-- What a call of `Execute` leaves behind: the two returned values, the
world after the call, and the collaborator calls it made. -/
structure Outcome (Ctx W In Val : Type) where
  result : Option (ToolResult Val)
  err : Option GoError
  world : W
  calls : List (Call Ctx In)

/-- The second half of `Execute`, from `result, err := t.handler(ctx, input)`
to the end, entered with the calls made so far.  `toAny` is the conversion
of an `Out` value to `any` that Go inserts at `Output: result`; it yields the
nil interface only for a nil value of an interface type `Out`. -/
def TypedTool.invoke {S Ctx W In Out Val : Type} (toAny : Out → Option Val)
    (t : TypedTool S Ctx W In Out) (ctx : Ctx) (input : In) (w : W)
    (calls : List (Call Ctx In)) : Outcome Ctx W In Val :=
  match t.handler ctx input w with
  | ((result, err), w1) =>
    match err with
    | some e =>
      { result := none, err := some e, world := w1,
        calls := calls ++ [Call.handler ctx input] }
    | none =>
      { result := some { Name := [], Output := toAny result, Error := none },
        err := none, world := w1,
        calls := calls ++ [Call.handler ctx input] }

/-- The method `Execute(ctx, params)`.  `To` is the collaborator
`safeunmarshal.To[In]`; `default` is the zero value of `In`. -/
def TypedTool.Execute {S Ctx W In Out Val : Type} [Inhabited In]
    (To : RawMessage → In × Option GoError) (toAny : Out → Option Val)
    (t : TypedTool S Ctx W In Out) (ctx : Ctx) (params : RawMessage) (w : W) :
    Outcome Ctx W In Val :=
  if len params > 0 then
    match To params with
    | (_, some err) =>
      { result := none,
        err := some (ErrorfW "failed to parse parameters: " err),
        world := w, calls := [Call.decode params] }
    | (parsedInput, none) =>
      t.invoke toAny ctx parsedInput w [Call.decode params]
  else
    t.invoke toAny ctx default w []

/-- The type `ToolOption`, a non-nil `func(*ToolSpec)`: what the call does to
the pointed-to specification. -/
abbrev ToolOption (S : Type) := ToolSpec S → ToolSpec S

/-- The option `WithType(toolType)`. -/
def WithType {S : Type} (toolType : GoString) : ToolOption S :=
  fun spec => { spec with Type_ := toolType }

/-- The option `WithVerb(verb)`. -/
def WithVerb {S : Type} (verb : GoString) : ToolOption S :=
  fun spec => { spec with UI := { spec.UI with Verb := verb } }

/-- The option `WithLongRunning(longRunning)`. -/
def WithLongRunning {S : Type} (longRunning : Bool) : ToolOption S :=
  fun spec => { spec with UI := { spec.UI with LongRunning := longRunning } }

/-- The option `WithCustomSchema(schema)`. -/
def WithCustomSchema {S : Type} (schema : Option S) : ToolOption S :=
  fun spec => { spec with Parameters := schema }

/-- The loop `for _, opt := range opts { opt(spec) }` of `NewTool`. -/
def applyOptions {S : Type} : List (ToolOption S) → ToolSpec S → ToolSpec S
  | [], spec => spec
  | opt :: opts, spec => applyOptions opts (opt spec)

/-- The function `NewTool(name, description, handler, opts...)`; `none` is the
nil `Tool` it returns when schema derivation fails.  `SafeSchemaFromFunc` is
the collaborator `funcschema.SafeSchemaFromFunc`.  The composite literal of
the source also sets `Sequential: false`, a field the `ToolSpec` of `tool.go`
does not declare; it is left out. -/
def NewTool {S Ctx W In Out : Type}
    (SafeSchemaFromFunc : Handler Ctx W In Out → Option S × Option GoError)
    (name description : GoString) (handler : Handler Ctx W In Out)
    (opts : List (ToolOption S)) : Option (TypedTool S Ctx W In Out) :=
  match SafeSchemaFromFunc handler with
  | (_, some _) => none
  | (schema, none) =>
    let spec : ToolSpec S :=
      { Name := name
        Type_ := name ++ gostr "_v1"
        Description := description
        Parameters := schema
        UI := { Verb := [], LongRunning := false } }
    some { spec := some (applyOptions opts spec), handler := handler }

/-! ## The specification's side -/

/-- The character class `[A-Za-z0-9_-]` of the name pattern, on a rune. -/
def InNameClass (r : Nat) : Prop :=
  ('A'.toNat ≤ r ∧ r ≤ 'Z'.toNat) ∨ ('a'.toNat ≤ r ∧ r ≤ 'z'.toNat) ∨
    ('0'.toNat ≤ r ∧ r ≤ '9'.toNat) ∨ r = '_'.toNat ∨ r = '-'.toNat

instance (r : Nat) : Decidable (InNameClass r) := by
  unfold InNameClass; infer_instance

/-- A name matches `^[A-Za-z0-9_-]{1,64}$`: it consists of between 1 and 64
characters, each of the class. -/
def MatchesNamePattern (name : GoString) : Prop :=
  1 ≤ (runes name).length ∧ (runes name).length ≤ 64 ∧
    ∀ r ∈ runes name, InNameClass r

instance (name : GoString) : Decidable (MatchesNamePattern name) := by
  unfold MatchesNamePattern; infer_instance

/-- The five rules of the validator, in the order the specification lists
them. -/
inductive Rule where
  | nameNonEmpty
  | nameLength
  | nameChars
  | descriptionNonEmpty
  | parametersNonNil
deriving DecidableEq

/-- The number under which the specification lists a rule. -/
def Rule.number : Rule → Nat
  | .nameNonEmpty => 1
  | .nameLength => 2
  | .nameChars => 3
  | .descriptionNonEmpty => 4
  | .parametersNonNil => 5

/-- What a rule demands of a specification value: 1 `name` non-empty,
2 `len(name) <= 64`, 3 every character of `name` in `[a-zA-Z0-9_-]`,
4 `description` non-empty, 5 `parameters` non-nil. -/
def Rule.Holds {S : Type} (s : ToolSpec S) : Rule → Prop
  | .nameNonEmpty => s.Name ≠ []
  | .nameLength => s.Name.length ≤ 64
  | .nameChars => ∀ r ∈ runes s.Name, InNameClass r
  | .descriptionNonEmpty => s.Description ≠ []
  | .parametersNonNil => s.Parameters.isSome = true

/-- The diagnosis `validateSpec` has for a rule. -/
def Rule.diagnosis : Rule → GoError
  | .nameNonEmpty => Errorf "tool spec must include a non-empty name"
  | .nameLength => Errorf "tool name must not exceed 64 characters"
  | .nameChars => Errorf
      "tool name must contain only alphanumeric characters, underscores, or hyphens"
  | .descriptionNonEmpty => Errorf "tool spec description cannot be empty"
  | .parametersNonNil => Errorf "tool spec parameters cannot be nil"

/-- A name of 33 characters, each the two-byte letter U+00E9. -/
def accentedName : GoString := (List.replicate 33 (gostr "é")).flatten

/-- A call of one of the four option constructors of `typed_tool.go`. -/
inductive OptionCall (S : Type) where
  | withType (toolType : GoString)
  | withVerb (verb : GoString)
  | withLongRunning (longRunning : Bool)
  | withCustomSchema (schema : Option S)

/-- The `ToolOption` an option constructor call evaluates to. -/
def OptionCall.eval {S : Type} : OptionCall S → ToolOption S
  | .withType toolType => WithType toolType
  | .withVerb verb => WithVerb verb
  | .withLongRunning longRunning => WithLongRunning longRunning
  | .withCustomSchema schema => WithCustomSchema schema

/-- The argument of the last `WithType` in a list of calls, if there is one. -/
def lastWithType {S : Type} (cs : List (OptionCall S)) : Option GoString :=
  (cs.filterMap fun c =>
    match c with
    | .withType toolType => some toolType
    | _ => none).getLast?

/-- The argument of the last `WithVerb` in a list of calls, if there is one. -/
def lastWithVerb {S : Type} (cs : List (OptionCall S)) : Option GoString :=
  (cs.filterMap fun c =>
    match c with
    | .withVerb verb => some verb
    | _ => none).getLast?

/-- The argument of the last `WithLongRunning` in a list of calls, if there
is one. -/
def lastWithLongRunning {S : Type} (cs : List (OptionCall S)) : Option Bool :=
  (cs.filterMap fun c =>
    match c with
    | .withLongRunning longRunning => some longRunning
    | _ => none).getLast?

/-- The argument of the last `WithCustomSchema` in a list of calls, if there
is one. -/
def lastWithCustomSchema {S : Type} (cs : List (OptionCall S)) :
    Option (Option S) :=
  (cs.filterMap fun c =>
    match c with
    | .withCustomSchema schema => some schema
    | _ => none).getLast?

/-! ## Concrete inputs -/

/-- A specification with an empty name, an empty description and nil
parameters. -/
def emptySpec : ToolSpec Unit :=
  { Name := [], Type_ := [], Description := [], Parameters := none,
    UI := { Verb := [], LongRunning := false } }

/-- A specification that is well-formed except for its name, `accentedName`. -/
def accentedSpec : ToolSpec Unit :=
  { Name := accentedName, Type_ := [], Description := gostr "d",
    Parameters := some (), UI := { Verb := [], LongRunning := false } }

/-- The handler of the specification's scenario: it returns `(42, nil)` and
leaves the world alone. -/
def lookupHandler : Handler Unit Unit Nat Int :=
  fun _ _ w => ((42, none), w)

/-- The adapter of the specification's scenario, named `lookup`. -/
def lookupTool : TypedTool Unit Unit Unit Nat Int :=
  { spec := some
      { Name := gostr "lookup", Type_ := gostr "lookup_v1",
        Description := gostr "looks up a value", Parameters := some (),
        UI := { Verb := [], LongRunning := false } }
    handler := lookupHandler }

/-- A decoder that rejects every input. -/
def rejectAll : RawMessage → Nat × Option GoError :=
  fun _ => (0, some (GoError.new (gostr "unexpected end of JSON input")))

/-- A decoder that reads every input as the number 7. -/
def decodeSeven : RawMessage → Nat × Option GoError :=
  fun _ => (7, none)

/-- An adapter whose handler fails with the error `boom`. -/
def failingTool : TypedTool Unit Unit Unit Nat Int :=
  { spec := none
    handler := fun _ _ w => ((0, some (GoError.new (gostr "boom"))), w) }

/-- An adapter with `Out = any` whose handler succeeds with the nil value:
the values of `any` are `Option Nat`, `none` being nil, and the conversion
to `any` is the identity. -/
def nilTool : TypedTool Unit Unit Unit Nat (Option Nat) :=
  { spec := none
    handler := fun _ _ w => ((none, none), w) }

/-- The envelope of the specification's scenario: output 42, no error. -/
def lookupEnvelope : ToolResult Int :=
  { Name := [], Output := some 42, Error := none }

/-- A schema-inference collaborator that derives the schema `()` for every
handler. -/
def unitSchema : Handler Unit Unit Nat Int → Option Unit × Option GoError :=
  fun _ => (some (), none)

/-- The constructor an option call was built by, numbered in the order of
`typed_tool.go`: 0 `WithType`, 1 `WithVerb`, 2 `WithLongRunning`,
3 `WithCustomSchema`. -/
def OptionCall.kind {S : Type} : OptionCall S → Nat
  | .withType _ => 0
  | .withVerb _ => 1
  | .withLongRunning _ => 2
  | .withCustomSchema _ => 3

/-! ## v1/location.go and v1/citable_document.go -/

namespace V1

/-- The struct `Location`; `Start` and `End` are Go `int`s. -/
structure Location where
  Type_ : GoString
  Start : Int
  End : Int
deriving DecidableEq

/-- The method `(l *Location) Validate()`, on the pointed-to value. -/
def Location.Validate (l : Location) : Option GoError :=
  if l.Type_ ≠ gostr "char" ∧ l.Type_ ≠ gostr "page" ∧
      l.Type_ ≠ gostr "block" then
    some (GoError.new (gostr "invalid location type"))
  else none

/-- The constant `SourceTypeText`. -/
def SourceTypeText : GoString := gostr "text"

/-- The constant `SourceTypeBase64`. -/
def SourceTypeBase64 : GoString := gostr "base64"

/-- The constant `SourceTypeCustom`. -/
def SourceTypeCustom : GoString := gostr "content"

/-- A non-nil value of the interface `ChunkedDocument`: what its three
methods return. -/
structure ChunkedDocument where
  GetChunks : List GoString
  GetFormattedCitationAtLocation : Location → GoString
  GetFormattedCitationFromText : GoString → GoString

/-- The struct `DocumentContent`; `Content = none` is the nil interface. -/
structure DocumentContent where
  Type_ : GoString
  MediaType : GoString
  Data : GoString
  Content : Option ChunkedDocument

/-- The struct `CitableDocument`. -/
structure CitableDocument where
  UniqueTitle : GoString
  Title : GoString
  Description : GoString
  CitationsEnabled : Bool
  Source : DocumentContent

/-- The condition `d.Content == nil || len(d.Content.GetChunks()) == 0`. -/
def noChunks : Option ChunkedDocument → Bool
  | none => true
  | some content => content.GetChunks.length == 0

/-- The method `(d *DocumentContent) Validate()`, on the pointed-to value:
the first `switch` rejects an unknown type, the second checks the
representation the type selects.  The verb `%s` inserts `d.Type`. -/
def DocumentContent.Validate (d : DocumentContent) : Option GoError :=
  if d.Type_ = SourceTypeText ∨ d.Type_ = SourceTypeBase64 ∨
      d.Type_ = SourceTypeCustom then
    if d.Type_ = SourceTypeCustom then
      if noChunks d.Content then
        some (Errorf "content required for content type")
      else if d.Data ≠ [] then
        some (Errorf "data not allowed with content type")
      else none
    else
      if d.Content.isSome then
        some (GoError.new
          (gostr "content not allowed with " ++ d.Type_ ++ gostr " type"))
      else if d.Data = [] then
        some (GoError.new
          (gostr "data required for " ++ d.Type_ ++ gostr " type"))
      else none
  else
    some (GoError.new (gostr "invalid source type: " ++ d.Type_))

/-- The method `(c *CitableDocument) Validate()`. -/
def CitableDocument.Validate (c : CitableDocument) : Option GoError :=
  c.Source.Validate

/-- The method `(c *CitableDocument) GetFormattedCitationAtLocation`. -/
def CitableDocument.GetFormattedCitationAtLocation (c : CitableDocument)
    (location : Location) : GoString :=
  match c.Source.Content with
  | some content => content.GetFormattedCitationAtLocation location
  | none => []

/-- A chunk provider with the single chunk `x` that formats every citation
as `cited`. -/
def oneChunk : ChunkedDocument :=
  { GetChunks := [gostr "x"]
    GetFormattedCitationAtLocation := fun _ => gostr "cited"
    GetFormattedCitationFromText := fun _ => gostr "cited" }

/-- A document of source type `text` that holds data and, against the
content model, a chunk provider as well. -/
def textWithProvider : CitableDocument :=
  { UniqueTitle := gostr "t", Title := gostr "t", Description := [],
    CitationsEnabled := true,
    Source :=
      { Type_ := SourceTypeText, MediaType := gostr "text/plain",
        Data := gostr "x", Content := some oneChunk } }

/-- A well-formed document of source type `content`. -/
def chunkedDocument : CitableDocument :=
  { UniqueTitle := gostr "t", Title := gostr "t", Description := [],
    CitationsEnabled := true,
    Source :=
      { Type_ := SourceTypeCustom, MediaType := gostr "text/plain",
        Data := [], Content := some oneChunk } }

end V1

/-! ## Further concrete inputs -/

/-- A schema-inference collaborator that fails with the error `e` for every
handler. -/
def failSchema (e : GoError) :
    Handler Unit Unit Nat Int → Option Unit × Option GoError :=
  fun _ => (none, some e)

/-! ## example/http_request.go -/

/-- The function `bytes.ReplaceAll(s, old, new)` for a non-empty `old`,
started `skip` bytes before the position where matching resumes: every
non-overlapping occurrence of `old`, found left to right, is replaced by
`new`.  (All calls below pass a non-empty `old`.) -/
def replaceFrom (old new : List Byte) : Nat → List Byte → List Byte
  | _, [] => []
  | 0, b :: bs =>
    if old.isPrefixOf (b :: bs) then
      new ++ replaceFrom old new (old.length - 1) bs
    else b :: replaceFrom old new 0 bs
  | k + 1, _ :: bs => replaceFrom old new k bs

/-- The function `bytes.ReplaceAll`, for a non-empty `old`. -/
def ReplaceAll (s old new : List Byte) : List Byte :=
  replaceFrom old new 0 s

/-- The constant `nonBreakingSpace`.  Its literal is a raw string, written
between back quotes, so it is the six characters backslash, `u`, `0`, `0`,
`a`, `0` and not the character U+00A0. -/
def nonBreakingSpace : GoString := gostr "\\u00a0"

/-- The constant `zeroWidthSpace`.  Its literal is a raw string, so it is
the six characters backslash, `u`, `2`, `0`, `0`, `b` and not the character
U+200B. -/
def zeroWidthSpace : GoString := gostr "\\u200b"

/-- The function `cleanHTMLWhitespace`.  The two quote literals are
interpreted strings holding the characters U+201C and U+201D. -/
def cleanHTMLWhitespace (input : List Byte) : List Byte :=
  let input1 := ReplaceAll input (gostr "“") (gostr "\"")
  let input2 := ReplaceAll input1 (gostr "”") (gostr "\"")
  ReplaceAll (ReplaceAll input2 zeroWidthSpace []) nonBreakingSpace (gostr " ")

/-- The UTF-8 encoding of the character U+00A0, the non-breaking space. -/
def nbspBytes : List Byte := [0xC2, 0xA0]

/-- The UTF-8 encoding of the character U+200B, the zero-width space. -/
def zwspBytes : List Byte := [0xE2, 0x80, 0x8B]

/-! ## The envelope on the wire -/

/-- Go's `utf8.AppendRune`: the UTF-8 encoding of a rune, that of U+FFFD for
a surrogate or a value above U+10FFFF. -/
def encodeRune (r : Nat) : GoString :=
  if r < 0x80 then [r.toUInt8]
  else if r < 0x800 then [(0xC0 + r / 64).toUInt8, (0x80 + r % 64).toUInt8]
  else if 0x10FFFF < r ∨ (0xD800 ≤ r ∧ r ≤ 0xDFFF) then [0xEF, 0xBF, 0xBD]
  else if r < 0x10000 then
    [(0xE0 + r / 4096).toUInt8, (0x80 + r / 64 % 64).toUInt8,
      (0x80 + r % 64).toUInt8]
  else
    [(0xF0 + r / 262144).toUInt8, (0x80 + r / 4096 % 64).toUInt8,
      (0x80 + r / 64 % 64).toUInt8, (0x80 + r % 64).toUInt8]

/-- A Go string after `encoding/json` has written it as a JSON string and
read it back: every byte that does not start a well-formed encoding is
replaced by U+FFFD, the rest is kept. -/
def coerceUTF8 (s : GoString) : GoString :=
  (runes s).flatMap encodeRune

/-- A JSON value as far as the fields of the envelope tell values apart:
`null`, a string, or something else (`true`, `false`, a number, an array or
an object, given by `a`). -/
inductive JSON (A : Type) where
  | null
  | string (s : GoString)
  | other (a : A)
deriving DecidableEq

/-- The function `json.Marshal` on a `ToolResult`: the members of the object
it writes, in field order, under the tags `name,omitempty`,
`output,omitempty` and `error,omitempty` (an empty string, a nil interface
and a nil pointer are left out), or the error it returns.  `marshal` is the
encoding of the dynamic value held in `Output`; it fails on a value JSON
cannot represent (a NaN or infinite float, a func, a channel), and then so
does the whole call. -/
def ToolResult.encode {Val A : Type} (marshal : Val → Except GoError (JSON A))
    (r : ToolResult Val) : Except GoError (List (GoString × JSON A)) :=
  match r.Output with
  | none =>
    Except.ok
      ((if r.Name = [] then []
        else [(gostr "name", JSON.string (coerceUTF8 r.Name))]) ++
      (match r.Error with
        | none => []
        | some msg => [(gostr "error", JSON.string (coerceUTF8 msg))]))
  | some v =>
    match marshal v with
    | Except.error err => Except.error err
    | Except.ok j =>
      Except.ok
        ((if r.Name = [] then []
          else [(gostr "name", JSON.string (coerceUTF8 r.Name))]) ++
        [(gostr "output", j)] ++
        (match r.Error with
          | none => []
          | some msg => [(gostr "error", JSON.string (coerceUTF8 msg))]))

/-- What `json.Unmarshal` does with a member value that is neither `null`
nor a string when it is stored into a field of type `any`: the decoded value
is stored; or it is stored and an error is saved (an array or object with a
number outside the range of `float64` inside); or nothing is stored and an
error is saved (such a number itself). -/
inductive AnyStore where
  | stored
  | storedWithError (err : GoError)
  | failed (err : GoError)
deriving DecidableEq

/-- The method `saveError` of the decoder: the first error is kept. -/
def saveError (saved : Option GoError) (err : GoError) : Option GoError :=
  match saved with
  | some first => some first
  | none => some err

/-- One step of `json.Unmarshal` into a `ToolResult`, on the envelope read so
far and the error saved so far: the member `key: value` is stored into the
field tagged `key`; `null` leaves a string as it is and sets a pointer or an
interface to nil; a value of the wrong JSON type is passed over with the
error `typeError key` saved; a member of another name is passed over.
`intoAny` tells how a value that is neither `null` nor a string goes into
`Output`.  The decoded `Output` holds the JSON value it was read from.
Member names are taken as the encoder writes them. -/
def ToolResult.store {A : Type} (intoAny : A → AnyStore)
    (typeError : GoString → GoError)
    (st : ToolResult (JSON A) × Option GoError) (member : GoString × JSON A) :
    ToolResult (JSON A) × Option GoError :=
  if member.1 = gostr "name" then
    match member.2 with
    | .string s => ({ st.1 with Name := s }, st.2)
    | .null => st
    | .other _ => (st.1, saveError st.2 (typeError member.1))
  else if member.1 = gostr "output" then
    match member.2 with
    | .null => ({ st.1 with Output := none }, st.2)
    | .string s => ({ st.1 with Output := some (JSON.string s) }, st.2)
    | .other a =>
      match intoAny a with
      | .stored => ({ st.1 with Output := some (JSON.other a) }, st.2)
      | .storedWithError err =>
        ({ st.1 with Output := some (JSON.other a) }, saveError st.2 err)
      | .failed err => (st.1, saveError st.2 err)
  else if member.1 = gostr "error" then
    match member.2 with
    | .string s => ({ st.1 with Error := some s }, st.2)
    | .null => ({ st.1 with Error := none }, st.2)
    | .other _ => (st.1, saveError st.2 (typeError member.1))
  else st

/-- The scan `checkValid` that `json.Unmarshal` runs over the whole document
before it stores anything: the first error `scan` finds in a member value
that is neither `null` nor a string (nesting beyond the depth the decoder
accepts), if there is one. -/
def checkValid {A : Type} (scan : A → Option GoError) :
    List (GoString × JSON A) → Option GoError
  | [] => none
  | member :: rest =>
    match member.2 with
    | .other a =>
      match scan a with
      | some err => some err
      | none => checkValid scan rest
    | _ => checkValid scan rest

/-- The function `json.Unmarshal` into a zero `ToolResult`, on the members
of a JSON object: the envelope it leaves and the error it returns.  A
document that fails the scan is rejected with nothing stored; otherwise the
members are stored in order and the first saved error is returned. -/
def ToolResult.decode {A : Type} (scan : A → Option GoError)
    (intoAny : A → AnyStore) (typeError : GoString → GoError)
    (members : List (GoString × JSON A)) :
    ToolResult (JSON A) × Option GoError :=
  match checkValid scan members with
  | some err => ({ Name := [], Output := none, Error := none }, some err)
  | none =>
    members.foldl (ToolResult.store intoAny typeError)
      ({ Name := [], Output := none, Error := none }, none)

/-- Encoding an envelope and decoding the result: the error of
`json.Marshal` when it fails, the envelope and the error of `json.Unmarshal`
otherwise. -/
def ToolResult.roundTrip {Val A : Type}
    (marshal : Val → Except GoError (JSON A)) (scan : A → Option GoError)
    (intoAny : A → AnyStore) (typeError : GoString → GoError)
    (r : ToolResult Val) :
    Except GoError (ToolResult (JSON A) × Option GoError) :=
  match r.encode marshal with
  | Except.error err => Except.error err
  | Except.ok members =>
    Except.ok (ToolResult.decode scan intoAny typeError members)

/-- The encoding of a value of type `*int`: `null` for the nil pointer, the
number pointed to otherwise. -/
def marshalPointer : Option Nat → Except GoError (JSON Nat)
  | none => Except.ok JSON.null
  | some n => Except.ok (JSON.other n)

/-- The scan of a number: an integer is never nested too deep. -/
def scanNumber : Nat → Option GoError :=
  fun _ => none

/-- The decoding of the number of an `int` into `any`: it is stored, no `int`
being outside the range of `float64`. -/
def numberIntoAny : Nat → AnyStore :=
  fun _ => AnyStore.stored

/-- The error of `json.Unmarshal` for a member of the wrong JSON type. -/
def fieldTypeError (field : GoString) : GoError :=
  GoError.new (gostr "json: cannot unmarshal into Go struct field ToolResult."
    ++ field)

/-- An envelope with only output set, to a nil `*int`. -/
def nilPointerEnvelope : ToolResult (Option Nat) :=
  { Name := [], Output := some none, Error := none }

/-- An envelope with only output set, to a pointer to 42. -/
def pointerEnvelope : ToolResult (Option Nat) :=
  { Name := gostr "lookup", Output := some (some 42), Error := none }

/-- An envelope with only error set, to a message of the single byte 0xFF. -/
def badMessageEnvelope : ToolResult (Option Nat) :=
  { Name := [], Output := none, Error := some [0xFF] }

/-- An envelope with only error set, to the message `boom`. -/
def boomEnvelope : ToolResult (Option Nat) :=
  { Name := gostr "lookup", Output := none, Error := some (gostr "boom") }

/-- The encoding of a `float64`, given as `none` for NaN and as its value
otherwise: `json.Marshal` fails on NaN. -/
def marshalFloat : Option Nat → Except GoError (JSON Nat)
  | none =>
    Except.error (GoError.new (gostr "json: unsupported value: NaN"))
  | some n => Except.ok (JSON.other n)

/-- The decoding into `any` of a number written by a `json.Number`: those
from 1000 on stand for numbers outside the range of `float64`, which are
not stored. -/
def bigNumberIntoAny : Nat → AnyStore :=
  fun n =>
    if n < 1000 then AnyStore.stored
    else AnyStore.failed
      (GoError.new (gostr "json: cannot unmarshal number into Go value"))

/-! ## Runes and bytes -/

theorem decodeRune_ascii (n : Nat) (rest : List Nat) (h : n < 0x80) :
    decodeRune (n :: rest) = (n, 1) := by
  simp [decodeRune, h]

theorem leadSize_le_two (n : Nat) : leadSize n ≤ 2 ↔ n < 0xE0 := by
  unfold leadSize; split_ifs <;> omega

theorem leadSize_le_three (n : Nat) : leadSize n ≤ 3 ↔ n < 0xF0 := by
  unfold leadSize; split_ifs <;> omega

theorem accept_bounds (n s1 : Nat) (h : ¬ (s1 < acceptLo n ∨ acceptHi n < s1)) :
    0x80 ≤ s1 ∧ s1 ≤ 0xBF ∧ (n = 0xE0 → 0xA0 ≤ s1) ∧ (n = 0xF0 → 0x90 ≤ s1) := by
  revert h
  unfold acceptLo acceptHi; split_ifs <;> omega

/-- A byte outside ASCII never starts a rune below U+0080. -/
theorem decodeRune_high (n : Nat) (rest : List Nat) (h : 0x80 ≤ n) :
    0x80 ≤ (decodeRune (n :: rest)).1 := by
  rcases rest with _ | ⟨n1, _ | ⟨n2, _ | ⟨n3, r3⟩⟩⟩ <;>
    simp only [decodeRune, RuneError, List.length_cons, List.length_nil,
      leadSize_le_two, leadSize_le_three] <;>
    split_ifs <;> dsimp only <;> try omega
  all_goals
    have hb := accept_bounds n _ (by assumption)
    omega

theorem isNameChar_lt (r : Nat) (h : isNameChar r = true) : r < 0x80 := by
  simp [isNameChar] at h
  omega

theorem isNameChar_iff (r : Nat) : isNameChar r = true ↔ InNameClass r := by
  simp [isNameChar, InNameClass]
  omega

theorem rangeRunes_ascii (bs : List Nat) (h : ∀ b ∈ bs, b < 0x80) :
    rangeRunes 0 bs = bs := by
  induction bs with
  | nil => rfl
  | cons b tl ih =>
    have hb : b < 0x80 := h b (List.mem_cons_self _ _)
    have ht : ∀ c ∈ tl, c < 0x80 := fun c hc => h c (List.mem_cons_of_mem _ hc)
    simp [rangeRunes, decodeRune_ascii b tl hb, ih ht]

theorem rangeRunes_all_nameChar (bs : List Nat) :
    (∀ r ∈ rangeRunes 0 bs, isNameChar r = true) ↔
      ∀ b ∈ bs, isNameChar b = true := by
  induction bs with
  | nil => simp [rangeRunes]
  | cons b tl ih =>
    by_cases hb : b < 0x80
    · simp [rangeRunes, decodeRune_ascii b tl hb, ih]
    · have h1 : isNameChar b ≠ true := fun hc => hb (isNameChar_lt b hc)
      have h2 : isNameChar (decodeRune (b :: tl)).1 ≠ true := fun hc => by
        have := isNameChar_lt _ hc
        have := decodeRune_high b tl (by omega)
        omega
      simp [rangeRunes, h1, h2]

/-- A string all of whose runes are name characters has one rune per byte. -/
theorem runes_length_of_nameChars (s : GoString)
    (h : ∀ r ∈ runes s, isNameChar r = true) : (runes s).length = s.length := by
  have hb := (rangeRunes_all_nameChar (s.map UInt8.toNat)).1 h
  have : runes s = s.map UInt8.toNat :=
    rangeRunes_ascii _ fun b hb1 => isNameChar_lt b (hb b hb1)
  rw [this, List.length_map]

theorem nameLoop_eq_none (rs : List Nat) :
    nameLoop rs = none ↔ ∀ r ∈ rs, isNameChar r = true := by
  induction rs with
  | nil => simp [nameLoop]
  | cons r tl ih =>
    by_cases hr : isNameChar r = true <;> simp [nameLoop, hr, ih]

theorem nameLoop_eq_some (rs : List Nat) (e : GoError) (h : nameLoop rs = some e) :
    e = Rule.diagnosis Rule.nameChars := by
  induction rs with
  | nil => simp [nameLoop] at h
  | cons r tl ih =>
    by_cases hr : isNameChar r = true
    · simp only [nameLoop, hr, if_true] at h
      exact ih h
    · simp only [nameLoop, hr] at h
      simp only [Bool.false_eq_true, if_false, Option.some.injEq] at h
      rw [← h]; rfl

/-! ## The validator -/

/-- C1: `validateSpec` on a specification (and so `Validate` on a tool whose
`Spec()` is that specification) returns no error exactly when the name
matches `^[A-Za-z0-9_-]{1,64}$`, the description is non-empty and the
parameters schema is non-nil. -/
theorem validateSpec_ok_iff {S : Type} (s : ToolSpec S) :
    (validateSpec (some s) = Run.ret none ↔
      MatchesNamePattern s.Name ∧ s.Description ≠ [] ∧ s.Parameters ≠ none) ∧
    Validate (some { Spec := some s }) = validateSpec (some s) := by
  refine ⟨?_, rfl⟩
  simp only [validateSpec, MatchesNamePattern, maxToolNameLength]
  constructor
  · intro h
    by_cases h1 : s.Name = []
    · simp [h1] at h
    by_cases h2 : s.Name.length > 64
    · simp [h1, h2] at h
    simp only [h1, h2, if_false] at h
    cases hloop : nameLoop (runes s.Name) with
    | some e => simp [hloop] at h
    | none =>
      simp only [hloop] at h
      by_cases h3 : s.Description = []
      · simp [h3] at h
      by_cases h4 : s.Parameters.isNone = true
      · simp [h3, h4] at h
      have hall := (nameLoop_eq_none _).1 hloop
      have hlen := runes_length_of_nameChars _ hall
      refine ⟨⟨?_, ?_, fun r hr => (isNameChar_iff r).1 (hall r hr)⟩, h3, ?_⟩
      · rw [hlen]; exact List.length_pos.2 h1
      · rw [hlen]; omega
      · intro hn; simp [hn] at h4
  · rintro ⟨⟨hpos, hle, hall⟩, hd, hp⟩
    have hall2 : ∀ r ∈ runes s.Name, isNameChar r = true :=
      fun r hr => (isNameChar_iff r).2 (hall r hr)
    have hlen := runes_length_of_nameChars _ hall2
    have h1 : s.Name ≠ [] := by
      intro hn; rw [hn] at hpos; simp [runes, rangeRunes] at hpos
    have h2 : ¬ s.Name.length > 64 := by omega
    have h3 := (nameLoop_eq_none _).2 hall2
    have h4 : s.Parameters.isNone = false := by
      cases hq : s.Parameters with
      | none => exact absurd hq hp
      | some _ => rfl
    simp [h1, h2, h3, hd, h4]

/-- C2: `validateSpec` is fail-fast in the stated order: on a specification
that violates at least one of the five rules it returns the diagnosis of the
lowest-numbered violated rule, whatever higher-numbered rules are violated as
well.  Rule 2 is read as written, `len(name) <= 64`, the length in bytes. -/
theorem validateSpec_first_violation {S : Type} (s : ToolSpec S)
    (h : ∃ r : Rule, ¬ Rule.Holds s r) :
    ∃ r : Rule, ¬ Rule.Holds s r ∧
      (∀ q : Rule, q.number < r.number → Rule.Holds s q) ∧
      validateSpec (some s) = Run.ret (some r.diagnosis) := by
  by_cases h1 : s.Name = []
  · refine ⟨Rule.nameNonEmpty, by simp [Rule.Holds, h1], ?_, ?_⟩
    · intro q hq; cases q <;> simp [Rule.number] at hq
    · simp [validateSpec, h1, Rule.diagnosis]
  by_cases h2 : s.Name.length > 64
  · refine ⟨Rule.nameLength, by simp [Rule.Holds]; omega, ?_, ?_⟩
    · intro q hq; cases q <;> simp [Rule.number] at hq
      exact h1
    · simp [validateSpec, h1, h2, maxToolNameLength, Rule.diagnosis]
  cases hloop : nameLoop (runes s.Name) with
  | some e =>
    refine ⟨Rule.nameChars, ?_, ?_, ?_⟩
    · intro hall
      have := (nameLoop_eq_none (runes s.Name)).2
        fun r hr => (isNameChar_iff r).2 (hall r hr)
      rw [this] at hloop; cases hloop
    · intro q hq; cases q <;> simp [Rule.number] at hq
      · exact h1
      · show s.Name.length ≤ 64
        omega
    · rw [nameLoop_eq_some _ e hloop] at hloop
      simp [validateSpec, h1, h2, maxToolNameLength, hloop]
  | none =>
    have hall : Rule.Holds s Rule.nameChars := fun r hr =>
      (isNameChar_iff r).1 ((nameLoop_eq_none _).1 hloop r hr)
    have hlen : Rule.Holds s Rule.nameLength := by
      show s.Name.length ≤ 64
      omega
    by_cases h3 : s.Description = []
    · refine ⟨Rule.descriptionNonEmpty, by simp [Rule.Holds, h3], ?_, ?_⟩
      · intro q hq; cases q <;> simp [Rule.number] at hq
        · exact h1
        · exact hlen
        · exact hall
      · simp [validateSpec, h1, h2, maxToolNameLength, hloop, h3, Rule.diagnosis]
    by_cases h4 : s.Parameters.isNone = true
    · refine ⟨Rule.parametersNonNil, ?_, ?_, ?_⟩
      · intro hp
        have hp2 : s.Parameters.isSome = true := hp
        cases hq : s.Parameters <;> simp [hq] at h4 hp2
      · intro q hq; cases q <;> simp [Rule.number] at hq
        · exact h1
        · exact hlen
        · exact hall
        · exact h3
      · simp [validateSpec, h1, h2, maxToolNameLength, hloop, h3, h4, Rule.diagnosis]
    · exfalso
      obtain ⟨r, hr⟩ := h
      apply hr
      cases r
      · exact h1
      · exact hlen
      · exact hall
      · exact h3
      · show s.Parameters.isSome = true
        cases hq : s.Parameters <;> simp [hq] at h4 ⊢

/-- The claim's example for C2: an empty name together with an empty
description and nil parameters violates a rule, and the diagnosis returned
is that of the lowest violated one. -/
theorem validateSpec_first_violation_witness :
    (∃ r : Rule, ¬ Rule.Holds emptySpec r) ∧
    ∃ r : Rule, ¬ Rule.Holds emptySpec r ∧
      (∀ q : Rule, q.number < r.number → Rule.Holds emptySpec q) ∧
      validateSpec (some emptySpec) = Run.ret (some r.diagnosis) :=
  ⟨⟨Rule.descriptionNonEmpty, by simp [Rule.Holds, emptySpec]⟩,
   validateSpec_first_violation emptySpec
    ⟨Rule.descriptionNonEmpty, by simp [Rule.Holds, emptySpec]⟩⟩

/-- C3, the code at a name of 33 two-byte characters: the name has 33
characters, none of them allowed, and 66 bytes; `validateSpec` returns the
length diagnosis and not the invalid-character one. -/
theorem validateSpec_accentedName :
    (runes accentedName).length = 33 ∧
    (∀ r ∈ runes accentedName, ¬ InNameClass r) ∧
    accentedName.length = 66 ∧
    validateSpec (some accentedSpec) =
      Run.ret (some (Errorf "tool name must not exceed 64 characters")) ∧
    Errorf "tool name must not exceed 64 characters" ≠ Errorf
      "tool name must contain only alphanumeric characters, underscores, or hyphens" := by
  refine ⟨by decide, by decide, by decide, by decide, by decide⟩

/-! ## The typed adapter -/

theorem invoke_calls {S Ctx W In Out Val : Type} (toAny : Out → Option Val)
    (t : TypedTool S Ctx W In Out) (ctx : Ctx) (input : In) (w : W)
    (calls : List (Call Ctx In)) :
    (t.invoke toAny ctx input w calls).calls = calls ++ [Call.handler ctx input] ∧
    (t.invoke toAny ctx input w calls).world = (t.handler ctx input w).2 := by
  unfold TypedTool.invoke
  rcases hh : t.handler ctx input w with ⟨⟨v, e⟩, w1⟩
  cases e <;> simp

theorem invoke_ok {S Ctx W In Out Val : Type} (toAny : Out → Option Val)
    (t : TypedTool S Ctx W In Out) (ctx : Ctx) (input : In) (w : W)
    (calls : List (Call Ctx In)) (v : Out)
    (hv : (t.handler ctx input w).1 = (v, none)) :
    (t.invoke toAny ctx input w calls).result =
      some { Name := [], Output := toAny v, Error := none } ∧
    (t.invoke toAny ctx input w calls).err = none := by
  unfold TypedTool.invoke
  rcases hh : t.handler ctx input w with ⟨⟨v1, e⟩, w1⟩
  rw [hh] at hv
  cases hv
  simp

theorem invoke_err {S Ctx W In Out Val : Type} (toAny : Out → Option Val)
    (t : TypedTool S Ctx W In Out) (ctx : Ctx) (input : In) (w : W)
    (calls : List (Call Ctx In)) (e : GoError)
    (he : (t.handler ctx input w).1.2 = some e) :
    (t.invoke toAny ctx input w calls).result = none ∧
    (t.invoke toAny ctx input w calls).err = some e := by
  unfold TypedTool.invoke
  rcases hh : t.handler ctx input w with ⟨⟨v1, e1⟩, w1⟩
  rw [hh] at he
  cases he
  simp

/-- C4: `Execute` with empty raw parameters (length 0, the nil slice
included) makes exactly one collaborator call, the handler with the caller's
context and the zero value of `In`, and none to the decoder; when the handler
returns `(v, nil)` it returns an envelope with output `v` and no error field,
and a nil error. -/
theorem Execute_empty_params {S Ctx W In Out Val : Type} [Inhabited In]
    (To : RawMessage → In × Option GoError) (toAny : Out → Option Val)
    (t : TypedTool S Ctx W In Out) (ctx : Ctx) (params : RawMessage) (w : W)
    (hlen : len params = 0) :
    (t.Execute To toAny ctx params w).calls = [Call.handler ctx default] ∧
    (t.Execute To toAny ctx params w).world = (t.handler ctx default w).2 ∧
    ∀ v : Out, (t.handler ctx default w).1 = (v, none) →
      (t.Execute To toAny ctx params w).result =
        some { Name := [], Output := toAny v, Error := none } ∧
      (t.Execute To toAny ctx params w).err = none := by
  have hex : t.Execute To toAny ctx params w = t.invoke toAny ctx default w [] := by
    simp [TypedTool.Execute, hlen]
  rw [hex]
  have h1 := invoke_calls toAny t ctx default w []
  exact ⟨by simpa using h1.1, h1.2,
    fun v hv => invoke_ok toAny t ctx default w [] v hv⟩

/-- The scenario of the specification for C4: the adapter `lookup` whose
handler returns `(42, nil)`, executed on the empty slice with a decoder that
would reject everything, calls the handler once and gives output 42. -/
theorem Execute_empty_params_witness :
    len (some []) = 0 ∧
    (lookupTool.Execute rejectAll some () (some []) ()).calls =
      [Call.handler () default] ∧
    (lookupTool.Execute rejectAll some () (some []) ()).result =
      some { Name := [], Output := some (42 : Int), Error := none } ∧
    (lookupTool.Execute rejectAll some () (some []) ()).err = none :=
  ⟨rfl,
    (Execute_empty_params rejectAll some lookupTool () (some []) () rfl).1,
    (Execute_empty_params rejectAll some lookupTool () (some []) () rfl).2.2
      42 rfl⟩

/-- C5: when the raw parameters are non-empty and the decoder fails with
`e`, `Execute` returns no envelope and an error that wraps `e`, its message
being `failed to parse parameters: ` followed by the message of `e`; the only
collaborator call is the one to the decoder, so the handler is not invoked
and the world is unchanged. -/
theorem Execute_decode_failure {S Ctx W In Out Val : Type} [Inhabited In]
    (To : RawMessage → In × Option GoError) (toAny : Out → Option Val)
    (t : TypedTool S Ctx W In Out) (ctx : Ctx) (params : RawMessage) (w : W)
    (x : In) (e : GoError) (hlen : 0 < len params)
    (hd : To params = (x, some e)) :
    (t.Execute To toAny ctx params w).result = (none : Option (ToolResult Val)) ∧
    (∃ err, (t.Execute To toAny ctx params w).err = some err ∧
      err.Unwrap = some e ∧
      err.Error = gostr "failed to parse parameters: " ++ e.Error) ∧
    (t.Execute To toAny ctx params w).calls = [Call.decode params] ∧
    (∀ c i, Call.handler c i ∉ (t.Execute To toAny ctx params w).calls) ∧
    (t.Execute To toAny ctx params w).world = w := by
  have hex : t.Execute To toAny ctx params w =
      { result := none,
        err := some (ErrorfW "failed to parse parameters: " e),
        world := w, calls := [Call.decode params] } := by
    simp [TypedTool.Execute, hlen, hd]
  rw [hex]
  refine ⟨rfl, ⟨_, rfl, rfl, rfl⟩, rfl, ?_, rfl⟩
  intro c i hmem
  simp at hmem

/-- An instance of C5: the adapter `lookup` on the one-byte blob `0x7B` with a
decoder that rejects it. -/
theorem Execute_decode_failure_witness :
    0 < len (some [0x7B]) ∧
    rejectAll (some [0x7B]) =
      (0, some (GoError.new (gostr "unexpected end of JSON input"))) ∧
    (lookupTool.Execute rejectAll some () (some [0x7B]) ()).result =
      (none : Option (ToolResult Int)) ∧
    (∃ err, (lookupTool.Execute rejectAll some () (some [0x7B]) ()).err = some err ∧
      err.Unwrap = some (GoError.new (gostr "unexpected end of JSON input")) ∧
      err.Error = gostr "failed to parse parameters: " ++
        (GoError.new (gostr "unexpected end of JSON input")).Error) ∧
    (lookupTool.Execute rejectAll some () (some [0x7B]) ()).calls =
      [Call.decode (some [0x7B])] ∧
    (∀ c i, Call.handler c i ∉
      (lookupTool.Execute rejectAll some () (some [0x7B]) ()).calls) ∧
    (lookupTool.Execute rejectAll some () (some [0x7B]) ()).world = () :=
  ⟨by decide, rfl,
    Execute_decode_failure rejectAll some lookupTool () (some [0x7B]) () 0
      (GoError.new (gostr "unexpected end of JSON input")) (by decide) rfl⟩

/-- C6: when the handler, called on the input `Execute` passes to it (the
zero value for empty parameters, the decoded value otherwise), returns a
non-nil error `e`, `Execute` returns `e` itself as its error and no
envelope. -/
theorem Execute_handler_error {S Ctx W In Out Val : Type} [Inhabited In]
    (To : RawMessage → In × Option GoError) (toAny : Out → Option Val)
    (t : TypedTool S Ctx W In Out) (ctx : Ctx) (params : RawMessage) (w : W)
    (x : In) (e : GoError)
    (hin : (len params = 0 ∧ x = default) ∨
      (0 < len params ∧ To params = (x, none)))
    (he : (t.handler ctx x w).1.2 = some e) :
    (t.Execute To toAny ctx params w).result = (none : Option (ToolResult Val)) ∧
    (t.Execute To toAny ctx params w).err = some e := by
  have hex : ∃ calls, t.Execute To toAny ctx params w =
      t.invoke toAny ctx x w calls := by
    rcases hin with ⟨hlen, hx⟩ | ⟨hlen, hd⟩
    · exact ⟨[], by simp [TypedTool.Execute, hlen, hx]⟩
    · exact ⟨[Call.decode params], by simp [TypedTool.Execute, hlen, hd]⟩
  obtain ⟨calls, hex⟩ := hex
  rw [hex]
  exact invoke_err toAny t ctx x w calls e he

/-- An instance of C6: a handler failing with `boom`, on empty parameters. -/
theorem Execute_handler_error_witness :
    ((len (none : RawMessage) = 0 ∧ (0 : Nat) = default) ∨
      (0 < len (none : RawMessage) ∧ decodeSeven none = (0, none))) ∧
    (failingTool.handler () 0 ()).1.2 = some (GoError.new (gostr "boom")) ∧
    (failingTool.Execute decodeSeven some () none ()).result =
      (none : Option (ToolResult Int)) ∧
    (failingTool.Execute decodeSeven some () none ()).err =
      some (GoError.new (gostr "boom")) :=
  ⟨Or.inl ⟨rfl, rfl⟩, rfl,
    Execute_handler_error decodeSeven some failingTool () none () 0
      (GoError.new (gostr "boom")) (Or.inl ⟨rfl, rfl⟩) rfl⟩

/-- C7: when the raw parameters are non-empty and the decoder returns `x`
without error, `Execute` calls the decoder and then the handler, once, with
the caller's context and `x`; when the handler returns `(v, nil)` it returns
a nil error and an envelope with output `v`, no error field and an empty
name. -/
theorem Execute_decoded_params {S Ctx W In Out Val : Type} [Inhabited In]
    (To : RawMessage → In × Option GoError) (toAny : Out → Option Val)
    (t : TypedTool S Ctx W In Out) (ctx : Ctx) (params : RawMessage) (w : W)
    (x : In) (hlen : 0 < len params) (hd : To params = (x, none)) :
    (t.Execute To toAny ctx params w).calls =
      [Call.decode params, Call.handler ctx x] ∧
    (t.Execute To toAny ctx params w).world = (t.handler ctx x w).2 ∧
    ∀ v : Out, (t.handler ctx x w).1 = (v, none) →
      (t.Execute To toAny ctx params w).result =
        some { Name := [], Output := toAny v, Error := none } ∧
      (t.Execute To toAny ctx params w).err = none := by
  have hex : t.Execute To toAny ctx params w =
      t.invoke toAny ctx x w [Call.decode params] := by
    simp [TypedTool.Execute, hlen, hd]
  rw [hex]
  have h1 := invoke_calls toAny t ctx x w [Call.decode params]
  exact ⟨by simpa using h1.1, h1.2,
    fun v hv => invoke_ok toAny t ctx x w [Call.decode params] v hv⟩

/-- An instance of C7: the adapter `lookup` on the one-byte blob `7`, decoded
to the number 7. -/
theorem Execute_decoded_params_witness :
    0 < len (some [0x37]) ∧
    decodeSeven (some [0x37]) = (7, none) ∧
    (lookupTool.Execute decodeSeven some () (some [0x37]) ()).calls =
      [Call.decode (some [0x37]), Call.handler () 7] ∧
    (lookupTool.Execute decodeSeven some () (some [0x37]) ()).result =
      some { Name := [], Output := some (42 : Int), Error := none } ∧
    (lookupTool.Execute decodeSeven some () (some [0x37]) ()).err = none :=
  ⟨by decide, rfl,
    (Execute_decoded_params decodeSeven some lookupTool () (some [0x37]) () 7
      (by decide) rfl).1,
    (Execute_decoded_params decodeSeven some lookupTool () (some [0x37]) () 7
      (by decide) rfl).2.2 42 rfl⟩

/-- C8 fails as stated: an adapter with `Out = any` whose handler succeeds
with the nil value returns an envelope in which neither output nor error is
populated. -/
theorem Execute_nil_output_neither :
    ∃ env : ToolResult Nat,
      (nilTool.Execute decodeSeven id () none ()).result = some env ∧
      (nilTool.Execute decodeSeven id () none ()).err = none ∧
      env.Output = none ∧ env.Error = none :=
  ⟨{ Name := [], Output := none, Error := none }, rfl, rfl, rfl, rfl⟩

/-- C8 as amended: every envelope `Execute` returns has no error field, so
output and error are never both populated; its output is the successful
result of the handler converted to `any`, so exactly one of the two is
populated unless that result converts to the nil interface. -/
theorem Execute_envelope_fields {S Ctx W In Out Val : Type} [Inhabited In]
    (To : RawMessage → In × Option GoError) (toAny : Out → Option Val)
    (t : TypedTool S Ctx W In Out) (ctx : Ctx) (params : RawMessage) (w : W)
    (env : ToolResult Val)
    (h : (t.Execute To toAny ctx params w).result = some env) :
    env.Error = none ∧
    ¬ (env.Output ≠ none ∧ env.Error ≠ none) ∧
    ∃ (x : In) (v : Out), (t.handler ctx x w).1 = (v, none) ∧
      env.Output = toAny v ∧
      ((env.Output ≠ none ∧ env.Error = none) ↔ toAny v ≠ none) := by
  have key : ∀ (x : In) (calls : List (Call Ctx In)),
      (t.invoke toAny ctx x w calls).result = some env →
      ∃ v : Out, (t.handler ctx x w).1 = (v, none) ∧
        env = { Name := [], Output := toAny v, Error := none } := by
    intro x calls hres
    unfold TypedTool.invoke at hres
    rcases hh : t.handler ctx x w with ⟨⟨v, e⟩, w1⟩
    rw [hh] at hres
    cases e with
    | some e => simp at hres
    | none =>
      simp only [Option.some.injEq] at hres
      exact ⟨v, rfl, hres.symm⟩
  have hex : ∃ (x : In) (v : Out), (t.handler ctx x w).1 = (v, none) ∧
      env = { Name := [], Output := toAny v, Error := none } := by
    unfold TypedTool.Execute at h
    by_cases hlen : len params > 0
    · rw [if_pos hlen] at h
      rcases hd : To params with ⟨x, e⟩
      rw [hd] at h
      cases e with
      | some e => simp at h
      | none =>
        obtain ⟨v, hv, henv⟩ := key x _ h
        exact ⟨x, v, hv, henv⟩
    · rw [if_neg hlen] at h
      obtain ⟨v, hv, henv⟩ := key default _ h
      exact ⟨default, v, hv, henv⟩
  obtain ⟨x, v, hv, henv⟩ := hex
  subst henv
  refine ⟨rfl, fun hb => hb.2 rfl, x, v, hv, rfl, ?_⟩
  simp

/-- An instance of C8 as amended: the envelope of the `lookup` scenario. -/
theorem Execute_envelope_fields_witness :
    (lookupTool.Execute rejectAll some () (some []) ()).result =
      some lookupEnvelope ∧
    (lookupEnvelope.Error = none ∧
      ¬ (lookupEnvelope.Output ≠ none ∧ lookupEnvelope.Error ≠ none) ∧
      ∃ (x : Nat) (v : Int), (lookupTool.handler () x ()).1 = (v, none) ∧
        lookupEnvelope.Output = some v ∧
        ((lookupEnvelope.Output ≠ none ∧ lookupEnvelope.Error = none) ↔
          some v ≠ none)) :=
  ⟨rfl,
    Execute_envelope_fields rejectAll some lookupTool () (some []) ()
      lookupEnvelope rfl⟩

/-! ## Construction and options -/

/-- C9: when schema derivation succeeds with schema `s`, `NewTool` without
options returns an adapter bound to the handler whose `Spec()` has the given
name and description, parameters `s`, type `name` followed by `_v1`, an
empty verb and long-running false. -/
theorem NewTool_default_spec {S Ctx W In Out : Type}
    (SafeSchemaFromFunc : Handler Ctx W In Out → Option S × Option GoError)
    (name description : GoString) (handler : Handler Ctx W In Out)
    (s : Option S) (hs : SafeSchemaFromFunc handler = (s, none)) :
    ∃ t : TypedTool S Ctx W In Out,
      NewTool SafeSchemaFromFunc name description handler [] = some t ∧
      t.handler = handler ∧
      t.Spec = some
        { Name := name
          Type_ := name ++ gostr "_v1"
          Description := description
          Parameters := s
          UI := { Verb := [], LongRunning := false } } := by
  refine ⟨TypedTool.mk (some
      { Name := name
        Type_ := name ++ gostr "_v1"
        Description := description
        Parameters := s
        UI := { Verb := [], LongRunning := false } }) handler, ?_, rfl, rfl⟩
  simp [NewTool, hs, applyOptions]

/-- An instance of C9: the adapter `lookup` of the specification's scenario,
built by `NewTool`, advertises the type `lookup_v1`. -/
theorem NewTool_default_spec_witness :
    unitSchema lookupHandler = (some (), none) ∧
    ∃ t : TypedTool Unit Unit Unit Nat Int,
      NewTool unitSchema (gostr "lookup") (gostr "looks up a value")
        lookupHandler [] = some t ∧
      t.handler = lookupHandler ∧
      t.Spec = some
        { Name := gostr "lookup"
          Type_ := gostr "lookup" ++ gostr "_v1"
          Description := gostr "looks up a value"
          Parameters := some ()
          UI := { Verb := [], LongRunning := false } } :=
  ⟨rfl, NewTool_default_spec unitSchema (gostr "lookup")
    (gostr "looks up a value") lookupHandler (some ()) rfl⟩

theorem applyOptions_eq_foldl {S : Type} (opts : List (ToolOption S))
    (spec : ToolSpec S) :
    applyOptions opts spec = opts.foldl (fun acc opt => opt acc) spec := by
  induction opts generalizing spec with
  | nil => rfl
  | cons opt opts ih => simp [applyOptions, ih]

theorem applyOptions_calls {S : Type} (cs : List (OptionCall S))
    (spec : ToolSpec S) :
    applyOptions (cs.map OptionCall.eval) spec =
      { Name := spec.Name
        Type_ := (lastWithType cs).getD spec.Type_
        Description := spec.Description
        Parameters := (lastWithCustomSchema cs).getD spec.Parameters
        UI := { Verb := (lastWithVerb cs).getD spec.UI.Verb
                LongRunning :=
                  (lastWithLongRunning cs).getD spec.UI.LongRunning } } := by
  induction cs generalizing spec with
  | nil => rfl
  | cons c cs ih =>
    rw [List.map_cons, applyOptions, ih]
    cases c <;>
      simp [OptionCall.eval, WithType, WithVerb, WithLongRunning,
        WithCustomSchema, lastWithType, lastWithVerb, lastWithLongRunning,
        lastWithCustomSchema, List.filterMap_cons, List.getLast?_cons]

/-- C10: `NewTool` applies its options left to right over the default
specification: the resulting `Spec()` is the left fold of the options over
it.  For options built by the four constructors the last write per field
wins: the type is the argument of the last `WithType` (`name` followed by
`_v1` without one), and likewise the verb, the long-running flag and the
parameters for `WithVerb`, `WithLongRunning` and `WithCustomSchema`; name
and description stay as given. -/
theorem NewTool_options_fold {S Ctx W In Out : Type}
    (SafeSchemaFromFunc : Handler Ctx W In Out → Option S × Option GoError)
    (name description : GoString) (handler : Handler Ctx W In Out)
    (s : Option S) (hs : SafeSchemaFromFunc handler = (s, none)) :
    (∀ opts : List (ToolOption S),
      (NewTool SafeSchemaFromFunc name description handler opts).map
          TypedTool.Spec =
        some (some (opts.foldl (fun acc opt => opt acc)
          { Name := name
            Type_ := name ++ gostr "_v1"
            Description := description
            Parameters := s
            UI := { Verb := [], LongRunning := false } }))) ∧
    (∀ cs : List (OptionCall S),
      (NewTool SafeSchemaFromFunc name description handler
          (cs.map OptionCall.eval)).map TypedTool.Spec =
        some (some
          { Name := name
            Type_ := (lastWithType cs).getD (name ++ gostr "_v1")
            Description := description
            Parameters := (lastWithCustomSchema cs).getD s
            UI := { Verb := (lastWithVerb cs).getD []
                    LongRunning := (lastWithLongRunning cs).getD false } })) := by
  constructor
  · intro opts
    simp [NewTool, hs, TypedTool.Spec, applyOptions_eq_foldl]
  · intro cs
    simp [NewTool, hs, TypedTool.Spec, applyOptions_calls]

/-- An instance of C10: of two `WithType` options the second one wins, and a
`WithVerb` between them is kept. -/
theorem NewTool_options_fold_witness :
    unitSchema lookupHandler = (some (), none) ∧
    (NewTool unitSchema (gostr "lookup") (gostr "looks up a value")
        lookupHandler
        [WithType (gostr "a"), WithVerb (gostr "Looking up"),
          WithType (gostr "b")]).map TypedTool.Spec =
      some (some
        { Name := gostr "lookup"
          Type_ := gostr "b"
          Description := gostr "looks up a value"
          Parameters := some ()
          UI := { Verb := gostr "Looking up", LongRunning := false } }) :=
  ⟨rfl,
    (NewTool_options_fold unitSchema (gostr "lookup")
      (gostr "looks up a value") lookupHandler (some ()) rfl).2
      [OptionCall.withType (gostr "a"), OptionCall.withVerb (gostr "Looking up"),
        OptionCall.withType (gostr "b")]⟩

/-! ## Options, field by field -/

/-- C11: each configuration option writes its argument to exactly one field
of the specification and leaves every other field as it was: `WithType`
writes `Type`, `WithVerb` writes `UI.Verb`, `WithLongRunning` writes
`UI.LongRunning`, `WithCustomSchema` writes `Parameters`; none of them
changes `Name` or `Description`. -/
theorem option_frame {S : Type} (spec : ToolSpec S) (toolType verb : GoString)
    (longRunning : Bool) (schema : Option S) :
    ((WithType toolType spec).Type_ = toolType ∧
      (WithType toolType spec).Name = spec.Name ∧
      (WithType toolType spec).Description = spec.Description ∧
      (WithType toolType spec).Parameters = spec.Parameters ∧
      (WithType toolType spec).UI = spec.UI) ∧
    ((WithVerb verb spec).UI.Verb = verb ∧
      (WithVerb verb spec).UI.LongRunning = spec.UI.LongRunning ∧
      (WithVerb verb spec).Name = spec.Name ∧
      (WithVerb verb spec).Type_ = spec.Type_ ∧
      (WithVerb verb spec).Description = spec.Description ∧
      (WithVerb verb spec).Parameters = spec.Parameters) ∧
    ((WithLongRunning longRunning spec).UI.LongRunning = longRunning ∧
      (WithLongRunning longRunning spec).UI.Verb = spec.UI.Verb ∧
      (WithLongRunning longRunning spec).Name = spec.Name ∧
      (WithLongRunning longRunning spec).Type_ = spec.Type_ ∧
      (WithLongRunning longRunning spec).Description = spec.Description ∧
      (WithLongRunning longRunning spec).Parameters = spec.Parameters) ∧
    ((WithCustomSchema schema spec).Parameters = schema ∧
      (WithCustomSchema schema spec).Name = spec.Name ∧
      (WithCustomSchema schema spec).Type_ = spec.Type_ ∧
      (WithCustomSchema schema spec).Description = spec.Description ∧
      (WithCustomSchema schema spec).UI = spec.UI) := by
  refine ⟨⟨rfl, rfl, rfl, rfl, rfl⟩, ⟨rfl, rfl, rfl, rfl, rfl, rfl⟩,
    ⟨rfl, rfl, rfl, rfl, rfl, rfl⟩, ⟨rfl, rfl, rfl, rfl, rfl⟩⟩

/-- C12: the options built by the four constructors are idempotent, and two
of them built by different constructors commute: applied to any
specification in either order they give the same specification. -/
theorem option_idempotent_commute {S : Type} (spec : ToolSpec S) :
    (∀ c : OptionCall S, c.eval (c.eval spec) = c.eval spec) ∧
    (∀ c d : OptionCall S, c.kind ≠ d.kind →
      c.eval (d.eval spec) = d.eval (c.eval spec)) := by
  constructor
  · intro c
    cases c <;> rfl
  · intro c d h
    cases c <;> cases d <;>
      first
      | exact absurd rfl h
      | rfl

/-- An instance of C12: `WithVerb` and `WithLongRunning`, which both write
into the UI hints, in either order on the empty specification. -/
theorem option_idempotent_commute_witness :
    WithVerb (gostr "Searching") (WithVerb (gostr "Searching") emptySpec) =
      WithVerb (gostr "Searching") emptySpec ∧
    WithVerb (gostr "Searching") (WithLongRunning true emptySpec) =
      WithLongRunning true (WithVerb (gostr "Searching") emptySpec) :=
  ⟨(option_idempotent_commute emptySpec).1
      (OptionCall.withVerb (gostr "Searching")),
    (option_idempotent_commute emptySpec).2
      (OptionCall.withVerb (gostr "Searching"))
      (OptionCall.withLongRunning true) (by decide)⟩

/-! ## The citable document model -/

/-- C13: `DocumentContent.Validate` returns no error exactly when either the
type is `text` or `base64`, the data is non-empty and no chunk provider is
present, or the type is `content`, a chunk provider with at least one chunk
is present and the data is empty.  So a value that passes has exactly one of
data and content populated, the one its type selects, and a value of any
other type is rejected. -/
theorem DocumentContent_Validate_iff (d : V1.DocumentContent) :
    (d.Validate = none ↔
      ((d.Type_ = gostr "text" ∨ d.Type_ = gostr "base64") ∧ d.Data ≠ [] ∧
          d.Content = none) ∨
        (d.Type_ = gostr "content" ∧
          (∃ content, d.Content = some content ∧
            1 ≤ content.GetChunks.length) ∧
          d.Data = [])) ∧
    (d.Validate = none →
      ((d.Data ≠ [] ∧ d.Content = none) ∨ (d.Data = [] ∧ d.Content ≠ none)) ∧
      (d.Type_ = gostr "content" ↔ d.Content ≠ none)) ∧
    (d.Type_ ≠ gostr "text" ∧ d.Type_ ≠ gostr "base64" ∧
        d.Type_ ≠ gostr "content" →
      d.Validate =
        some (GoError.new (gostr "invalid source type: " ++ d.Type_))) := by
  have hne1 : gostr "text" ≠ gostr "content" := by decide
  have hne2 : gostr "base64" ≠ gostr "content" := by decide
  have hiff : d.Validate = none ↔
      ((d.Type_ = gostr "text" ∨ d.Type_ = gostr "base64") ∧ d.Data ≠ [] ∧
          d.Content = none) ∨
        (d.Type_ = gostr "content" ∧
          (∃ content, d.Content = some content ∧
            1 ≤ content.GetChunks.length) ∧
          d.Data = []) := by
    unfold V1.DocumentContent.Validate V1.SourceTypeText V1.SourceTypeBase64
      V1.SourceTypeCustom
    by_cases hc : d.Type_ = gostr "content"
    · have h1 : d.Type_ ≠ gostr "text" := fun h => hne1 (h ▸ hc)
      have h2 : d.Type_ ≠ gostr "base64" := fun h => hne2 (h ▸ hc)
      cases hcont : d.Content with
      | none => simp [hc, V1.noChunks, hne1.symm, hne2.symm]
      | some content =>
        by_cases hlen : content.GetChunks.length = 0
        · simp [hc, V1.noChunks, hne1.symm, hne2.symm, hlen]
        · by_cases hd : d.Data = []
          · simp [hc, V1.noChunks, hne1.symm, hne2.symm, hlen, hd]
            omega
          · simp [hc, V1.noChunks, hne1.symm, hne2.symm, hlen, hd]
    · by_cases ht : d.Type_ = gostr "text" ∨ d.Type_ = gostr "base64"
      · have hor : d.Type_ = gostr "text" ∨ d.Type_ = gostr "base64" ∨
            d.Type_ = gostr "content" := by tauto
        cases hcont : d.Content with
        | none =>
          by_cases hd : d.Data = [] <;> simp [hc, ht, hor, hd]
        | some content => simp [hc, ht, hor]
      · have hor : ¬ (d.Type_ = gostr "text" ∨ d.Type_ = gostr "base64" ∨
            d.Type_ = gostr "content") := by tauto
        simp [hc, ht, hor]
  refine ⟨hiff, ?_, ?_⟩
  · intro hv
    rcases hiff.1 hv with ⟨ht, hd, hcn⟩ | ⟨ht, ⟨content, hcs, _⟩, hd⟩
    · refine ⟨Or.inl ⟨hd, hcn⟩, ?_⟩
      constructor
      · intro hc
        rcases ht with ht | ht
        · exact absurd (ht ▸ hc) hne1
        · exact absurd (ht ▸ hc) hne2
      · intro h; exact absurd hcn h
    · refine ⟨Or.inr ⟨hd, by simp [hcs]⟩, ?_⟩
      constructor
      · intro _; simp [hcs]
      · intro _; exact ht
  · rintro ⟨h1, h2, h3⟩
    simp [V1.DocumentContent.Validate, V1.SourceTypeText, V1.SourceTypeBase64,
      V1.SourceTypeCustom, h1, h2, h3]

/-- C14 fails as stated: a document of source type `text` that also holds a
chunk provider gets the provider's citation, not the empty string. -/
theorem citation_text_with_provider :
    V1.textWithProvider.Source.Type_ = gostr "text" ∧
    V1.textWithProvider.GetFormattedCitationAtLocation
        { Type_ := gostr "char", Start := 0, End := 10 } = gostr "cited" ∧
    gostr "cited" ≠ [] := by
  refine ⟨rfl, rfl, by decide⟩

/-- C14 as amended: `GetFormattedCitationAtLocation` returns the citation of
the chunk provider when one is present and the empty string when none is,
whatever the source type; so for a document whose source passes `Validate`
it returns the provider's citation when the type is `content` and the empty
string when the type is `text` or `base64`. -/
theorem citation_follows_provider (c : V1.CitableDocument)
    (location : V1.Location) :
    (∀ content, c.Source.Content = some content →
      c.GetFormattedCitationAtLocation location =
        content.GetFormattedCitationAtLocation location) ∧
    (c.Source.Content = none →
      c.GetFormattedCitationAtLocation location = []) ∧
    (c.Validate = none →
      (c.Source.Type_ = gostr "content" →
        ∃ content, c.Source.Content = some content ∧
          c.GetFormattedCitationAtLocation location =
            content.GetFormattedCitationAtLocation location) ∧
      (c.Source.Type_ = gostr "text" ∨ c.Source.Type_ = gostr "base64" →
        c.GetFormattedCitationAtLocation location = [])) := by
  have h1 : ∀ content, c.Source.Content = some content →
      c.GetFormattedCitationAtLocation location =
        content.GetFormattedCitationAtLocation location := by
    intro content hc
    simp [V1.CitableDocument.GetFormattedCitationAtLocation, hc]
  have h2 : c.Source.Content = none →
      c.GetFormattedCitationAtLocation location = [] := by
    intro hc
    simp [V1.CitableDocument.GetFormattedCitationAtLocation, hc]
  refine ⟨h1, h2, ?_⟩
  intro hv
  have hne1 : gostr "text" ≠ gostr "content" := by decide
  have hne2 : gostr "base64" ≠ gostr "content" := by decide
  unfold V1.CitableDocument.Validate V1.DocumentContent.Validate
    V1.SourceTypeText V1.SourceTypeBase64 V1.SourceTypeCustom at hv
  constructor
  · intro ht
    cases hcont : c.Source.Content with
    | none => simp [ht, hcont, V1.noChunks] at hv
    | some content => exact ⟨content, rfl, h1 content hcont⟩
  · intro ht
    have hc : c.Source.Type_ ≠ gostr "content" := by
      rcases ht with ht | ht
      · rw [ht]; exact hne1
      · rw [ht]; exact hne2
    cases hcont : c.Source.Content with
    | none => exact h2 hcont
    | some content => simp [ht, hc, hcont] at hv

/-- An instance of C14 as amended: a well-formed document of type `content`
passes `Validate` and gets the citation of its provider. -/
theorem citation_follows_provider_witness :
    V1.chunkedDocument.Validate = none ∧
    V1.chunkedDocument.Source.Type_ = gostr "content" ∧
    ∃ content, V1.chunkedDocument.Source.Content = some content ∧
      V1.chunkedDocument.GetFormattedCitationAtLocation
          { Type_ := gostr "char", Start := 0, End := 10 } =
        content.GetFormattedCitationAtLocation
          { Type_ := gostr "char", Start := 0, End := 10 } :=
  ⟨by decide, rfl,
    ((citation_follows_provider V1.chunkedDocument
      { Type_ := gostr "char", Start := 0, End := 10 }).2.2 (by decide)).1 rfl⟩

/-- C15: `Location.Validate` returns an error exactly when the type is none
of `char`, `page`, `block`, and its result is the same for all values of
start and end, negative ones and start above end included.  The location
`{char, 0, 10}` passes and `{paragraph}` does not. -/
theorem Location_Validate_iff (l : V1.Location) :
    (l.Validate ≠ none ↔
      l.Type_ ≠ gostr "char" ∧ l.Type_ ≠ gostr "page" ∧
        l.Type_ ≠ gostr "block") ∧
    (∀ start stop : Int,
      V1.Location.Validate { Type_ := l.Type_, Start := start, End := stop } =
        l.Validate) ∧
    V1.Location.Validate { Type_ := gostr "char", Start := 0, End := 10 } =
      none ∧
    V1.Location.Validate { Type_ := gostr "paragraph", Start := 0, End := 0 } =
      some (GoError.new (gostr "invalid location type")) := by
  refine ⟨?_, fun _ _ => rfl, by decide, by decide⟩
  unfold V1.Location.Validate
  by_cases h : l.Type_ ≠ gostr "char" ∧ l.Type_ ≠ gostr "page" ∧
      l.Type_ ≠ gostr "block"
  · simp [h]
  · rw [if_neg h]
    simp only [ne_eq, not_true_eq_false, false_iff]
    exact h

/-! ## Construction failure and validation of built adapters -/

/-- C16 fails as stated: when schema derivation fails `NewTool` returns the
nil `Tool`, the same result for two different derivation errors, so the
result carries no information about the error. -/
theorem NewTool_failure_drops_error :
    GoError.new (gostr "unsupported input type") ≠
      GoError.new (gostr "handler is not a function") ∧
    NewTool (failSchema (GoError.new (gostr "unsupported input type")))
      (gostr "lookup") (gostr "looks up a value") lookupHandler [] = none ∧
    NewTool (failSchema (GoError.new (gostr "handler is not a function")))
      (gostr "lookup") (gostr "looks up a value") lookupHandler [] = none := by
  refine ⟨by decide, rfl, rfl⟩

/-- C16 as amended: when schema derivation fails, whatever the error and
the options, `NewTool` returns the nil `Tool` and so never an adapter. -/
theorem NewTool_schema_failure {S Ctx W In Out : Type}
    (SafeSchemaFromFunc : Handler Ctx W In Out → Option S × Option GoError)
    (name description : GoString) (handler : Handler Ctx W In Out)
    (opts : List (ToolOption S)) (s : Option S) (e : GoError)
    (hs : SafeSchemaFromFunc handler = (s, some e)) :
    NewTool SafeSchemaFromFunc name description handler opts = none := by
  simp [NewTool, hs]

/-- An instance of C16 as amended, with an option in the list. -/
theorem NewTool_schema_failure_witness :
    failSchema (GoError.new (gostr "unsupported input type")) lookupHandler =
      (none, some (GoError.new (gostr "unsupported input type"))) ∧
    NewTool (failSchema (GoError.new (gostr "unsupported input type")))
      (gostr "lookup") (gostr "looks up a value") lookupHandler
      [WithType (gostr "function")] = none :=
  ⟨rfl, NewTool_schema_failure _ (gostr "lookup") (gostr "looks up a value")
    lookupHandler [WithType (gostr "function")] none
    (GoError.new (gostr "unsupported input type")) rfl⟩

theorem validateSpec_ok_of_rules {S : Type} (s : ToolSpec S)
    (hname : MatchesNamePattern s.Name) (hd : s.Description ≠ [])
    (hp : s.Parameters ≠ none) : validateSpec (some s) = Run.ret none := by
  obtain ⟨hpos, hle, hall⟩ := hname
  have hall2 : ∀ r ∈ runes s.Name, isNameChar r = true :=
    fun r hr => (isNameChar_iff r).2 (hall r hr)
  have hlen := runes_length_of_nameChars _ hall2
  have h1 : s.Name ≠ [] := by
    intro hn; rw [hn] at hpos; simp [runes, rangeRunes] at hpos
  have h2 : ¬ s.Name.length > 64 := by omega
  have h3 := (nameLoop_eq_none _).2 hall2
  have h4 : s.Parameters.isNone = false := by
    cases hq : s.Parameters with
    | none => exact absurd hq hp
    | some _ => rfl
  simp [validateSpec, maxToolNameLength, h1, h2, h3, hd, h4]

/-- C17 fails as stated: `NewTool` with an empty name and an empty
description returns an adapter, and the validator rejects its `Spec()`. -/
theorem NewTool_spec_rejected :
    (NewTool unitSchema [] [] lookupHandler []).map
        (fun t => validateSpec t.Spec) =
      some (Run.ret (some (Errorf "tool spec must include a non-empty name"))) := by
  decide

/-- C17 as amended: `NewTool` does not validate; the `Spec()` of the adapter
it returns passes the validator whenever the name matches
`^[A-Za-z0-9_-]{1,64}$`, the description is non-empty, and the parameters
left by the options (the argument of the last `WithCustomSchema`, else the
derived schema) are non-nil. -/
theorem NewTool_spec_valid {S Ctx W In Out : Type}
    (SafeSchemaFromFunc : Handler Ctx W In Out → Option S × Option GoError)
    (name description : GoString) (handler : Handler Ctx W In Out)
    (s : Option S) (cs : List (OptionCall S))
    (hs : SafeSchemaFromFunc handler = (s, none))
    (hname : MatchesNamePattern name) (hdesc : description ≠ [])
    (hparams : (lastWithCustomSchema cs).getD s ≠ none) :
    ∃ t : TypedTool S Ctx W In Out,
      NewTool SafeSchemaFromFunc name description handler
        (cs.map OptionCall.eval) = some t ∧
      validateSpec t.Spec = Run.ret none ∧
      Validate (some t.asTool) = Run.ret none := by
  have hv : validateSpec (some (applyOptions (cs.map OptionCall.eval)
      { Name := name
        Type_ := name ++ gostr "_v1"
        Description := description
        Parameters := s
        UI := { Verb := [], LongRunning := false } })) = Run.ret none := by
    rw [applyOptions_calls]
    exact validateSpec_ok_of_rules _ hname hdesc hparams
  refine ⟨TypedTool.mk (some (applyOptions (cs.map OptionCall.eval)
      { Name := name
        Type_ := name ++ gostr "_v1"
        Description := description
        Parameters := s
        UI := { Verb := [], LongRunning := false } })) handler, ?_, hv, hv⟩
  simp [NewTool, hs]

/-- An instance of C17 as amended: the adapter of the example HTTP tool,
built with `WithType` and `WithVerb`. -/
theorem NewTool_spec_valid_witness :
    unitSchema lookupHandler = (some (), none) ∧
    MatchesNamePattern (gostr "http_request") ∧
    gostr "Make HTTP requests" ≠ [] ∧
    (lastWithCustomSchema
      [OptionCall.withType (gostr "function"),
        OptionCall.withVerb (gostr "Making HTTP request")]).getD (some ()) ≠
      none ∧
    ∃ t : TypedTool Unit Unit Unit Nat Int,
      NewTool unitSchema (gostr "http_request") (gostr "Make HTTP requests")
        lookupHandler
        [WithType (gostr "function"), WithVerb (gostr "Making HTTP request")] =
          some t ∧
      validateSpec t.Spec = Run.ret none ∧
      Validate (some t.asTool) = Run.ret none :=
  ⟨rfl, by decide, by decide, by decide,
    NewTool_spec_valid unitSchema (gostr "http_request")
      (gostr "Make HTTP requests") lookupHandler (some ())
      [OptionCall.withType (gostr "function"),
        OptionCall.withVerb (gostr "Making HTTP request")]
      rfl (by decide) (by decide) (by decide)⟩

/-- C19, the code on the values the claim names: `Validate` panics on the
nil `Tool`, which is what `NewTool` returns when schema derivation fails, and
on a tool whose `Spec()` returns nil. -/
theorem Validate_nil_panics :
    Validate (none : Option (Tool Unit)) = Run.panic ∧
    Validate ((NewTool
        (failSchema (GoError.new (gostr "unsupported input type")))
        (gostr "lookup") (gostr "looks up a value") lookupHandler []).map
      TypedTool.asTool) = Run.panic ∧
    Validate (some failingTool.asTool) = Run.panic ∧
    failingTool.Spec = none := by
  refine ⟨rfl, rfl, rfl, rfl⟩

/-! ## The example tool's whitespace cleanup -/

/-- C20, the code on the characters the claim names: the non-breaking space
and the zero-width space come out of `cleanHTMLWhitespace` unchanged, so
the output still contains U+00A0 and U+200B; what the function removes and
replaces is the six-character text of the two escapes.  The curly quotes
are replaced. -/
theorem cleanHTMLWhitespace_keeps_spaces :
    runes nbspBytes = [0x00A0] ∧
    cleanHTMLWhitespace nbspBytes = nbspBytes ∧
    runes zwspBytes = [0x200B] ∧
    cleanHTMLWhitespace zwspBytes = zwspBytes ∧
    cleanHTMLWhitespace (gostr "a\\u00a0b\\u200bc") = gostr "a bc" ∧
    cleanHTMLWhitespace (gostr "“q”") = gostr "\"q\"" := by
  refine ⟨by decide, by decide, by decide, by decide, by decide, by decide⟩

/-! ## The envelope on the wire -/

theorem coerceUTF8_nil : coerceUTF8 [] = [] := rfl

theorem key_output_ne_name : gostr "output" ≠ gostr "name" := by decide

theorem key_error_ne_name : gostr "error" ≠ gostr "name" := by decide

theorem key_error_ne_output : gostr "error" ≠ gostr "output" := by decide

/-- The round trip of an envelope without output: it always succeeds, and
name and error come back coerced to valid UTF-8. -/
theorem roundTrip_no_output {Val A : Type}
    (marshal : Val → Except GoError (JSON A)) (scan : A → Option GoError)
    (intoAny : A → AnyStore) (typeError : GoString → GoError)
    (r : ToolResult Val) (ho : r.Output = none) :
    r.roundTrip marshal scan intoAny typeError =
      Except.ok
        ({ Name := coerceUTF8 r.Name, Output := none,
           Error := r.Error.map coerceUTF8 }, none) := by
  rcases r with ⟨name, output, error⟩
  simp only at ho
  subst ho
  by_cases hn : name = [] <;> cases error <;>
    simp [ToolResult.roundTrip, ToolResult.encode, ToolResult.decode,
      ToolResult.store, checkValid, hn, key_output_ne_name, key_error_ne_name,
      key_error_ne_output, coerceUTF8_nil]

/-- The round trip of an envelope whose output encodes as `j`: what comes
back in `Output` and `Error`, and when `json.Unmarshal` returns no error. -/
theorem roundTrip_output {Val A : Type}
    (marshal : Val → Except GoError (JSON A)) (scan : A → Option GoError)
    (intoAny : A → AnyStore) (typeError : GoString → GoError)
    (r : ToolResult Val) (v : Val) (j : JSON A) (ho : r.Output = some v)
    (hm : marshal v = Except.ok j) :
    ∃ (rt : ToolResult (JSON A)) (err : Option GoError),
      r.roundTrip marshal scan intoAny typeError = Except.ok (rt, err) ∧
      (rt.Error = none ∨ rt.Error = r.Error.map coerceUTF8) ∧
      (rt.Output = none ∨ rt.Output = some j) ∧
      (rt.Output ≠ none → j ≠ JSON.null) ∧
      (err = none → rt.Error = r.Error.map coerceUTF8 ∧
        (j ≠ JSON.null → rt.Output = some j)) := by
  rcases r with ⟨name, output, error⟩
  simp only at ho
  subst ho
  cases j with
  | null =>
    by_cases hn : name = [] <;> cases error <;>
      simp [ToolResult.roundTrip, ToolResult.encode, ToolResult.decode,
        ToolResult.store, checkValid, hm, hn, key_output_ne_name,
        key_error_ne_name, key_error_ne_output] <;>
      exact ⟨_, _, ⟨rfl, rfl⟩, by simp⟩
  | string s =>
    by_cases hn : name = [] <;> cases error <;>
      simp [ToolResult.roundTrip, ToolResult.encode, ToolResult.decode,
        ToolResult.store, checkValid, hm, hn, key_output_ne_name,
        key_error_ne_name, key_error_ne_output] <;>
      exact ⟨_, _, ⟨rfl, rfl⟩, by simp⟩
  | other a =>
    cases hs : scan a with
    | some e =>
      by_cases hn : name = [] <;> cases error <;>
        simp [ToolResult.roundTrip, ToolResult.encode, ToolResult.decode,
          ToolResult.store, checkValid, hm, hn, hs, key_output_ne_name,
          key_error_ne_name, key_error_ne_output] <;>
        exact ⟨_, _, ⟨rfl, rfl⟩, by simp⟩
    | none =>
      cases hi : intoAny a <;> by_cases hn : name = [] <;> cases error <;>
        simp [ToolResult.roundTrip, ToolResult.encode, ToolResult.decode,
          ToolResult.store, checkValid, saveError, hm, hn, hs, hi,
          key_output_ne_name, key_error_ne_name, key_error_ne_output] <;>
        exact ⟨_, _, ⟨rfl, rfl⟩, by simp⟩

/-- C18 fails as stated: an envelope with only output set, to a nil pointer,
is written with the member `output: null` and read back, without any error,
with output absent; and an envelope with only error set, to a message that
is not valid UTF-8, is read back with another message. -/
theorem roundTrip_loses_output :
    nilPointerEnvelope.Output ≠ none ∧ nilPointerEnvelope.Error = none ∧
    nilPointerEnvelope.encode marshalPointer =
      Except.ok [(gostr "output", JSON.null)] ∧
    nilPointerEnvelope.roundTrip marshalPointer scanNumber numberIntoAny
        fieldTypeError =
      Except.ok ({ Name := [], Output := none, Error := none }, none) ∧
    badMessageEnvelope.Output = none ∧
    badMessageEnvelope.Error = some [0xFF] ∧
    badMessageEnvelope.roundTrip marshalPointer scanNumber numberIntoAny
        fieldTypeError =
      Except.ok
        ({ Name := [], Output := none, Error := some [0xEF, 0xBF, 0xBD] },
          none) := by
  refine ⟨by decide, rfl, rfl, rfl, rfl, rfl, rfl⟩

/-- C18 as amended.  For an envelope with only output set: when
`json.Marshal` cannot encode the output the round trip fails with its error
and no envelope comes back; otherwise an envelope comes back whose error is
absent and, when `json.Unmarshal` returns no error, whose output is present
exactly when the output does not encode as `null`.  For an envelope with
only error set the round trip always succeeds, with output absent and the
message coerced to valid UTF-8, the same message when it is valid UTF-8.
Output and error are not both present in an envelope that comes back unless
they were both set before. -/
theorem roundTrip_discriminant {Val A : Type}
    (marshal : Val → Except GoError (JSON A)) (scan : A → Option GoError)
    (intoAny : A → AnyStore) (typeError : GoString → GoError)
    (r : ToolResult Val) :
    (∀ v e, r.Output = some v → marshal v = Except.error e →
      r.roundTrip marshal scan intoAny typeError = Except.error e) ∧
    (∀ v j, r.Output = some v → r.Error = none → marshal v = Except.ok j →
      ∃ (rt : ToolResult (JSON A)) (err : Option GoError),
        r.roundTrip marshal scan intoAny typeError = Except.ok (rt, err) ∧
        rt.Error = none ∧
        (err = none → (rt.Output ≠ none ↔ j ≠ JSON.null))) ∧
    (∀ msg, r.Output = none → r.Error = some msg →
      r.roundTrip marshal scan intoAny typeError =
        Except.ok
          ({ Name := coerceUTF8 r.Name, Output := none,
             Error := some (coerceUTF8 msg) }, none) ∧
      (coerceUTF8 msg = msg →
        r.roundTrip marshal scan intoAny typeError =
          Except.ok
            ({ Name := coerceUTF8 r.Name, Output := none,
               Error := some msg }, none))) ∧
    (∀ rt err,
      r.roundTrip marshal scan intoAny typeError = Except.ok (rt, err) →
      ¬ (r.Output ≠ none ∧ r.Error ≠ none) →
      ¬ (rt.Output ≠ none ∧ rt.Error ≠ none)) := by
  refine ⟨?_, ?_, ?_, ?_⟩
  · intro v e ho hm
    simp [ToolResult.roundTrip, ToolResult.encode, ho, hm]
  · intro v j ho he hm
    obtain ⟨rt, err, hrt, herr, _, hnull, hok⟩ :=
      roundTrip_output marshal scan intoAny typeError r v j ho hm
    refine ⟨rt, err, hrt, ?_, ?_⟩
    · rcases herr with h | h
      · exact h
      · rw [h, he]; rfl
    · intro hnone
      constructor
      · exact hnull
      · intro hj
        rw [(hok hnone).2 hj]
        simp
  · intro msg ho he
    have h := roundTrip_no_output marshal scan intoAny typeError r ho
    rw [he] at h
    refine ⟨h, fun hc => ?_⟩
    rw [h, Option.map_some', hc]
  · intro rt err hrt hnot hboth
    apply hnot
    cases ho : r.Output with
    | none =>
      have h := roundTrip_no_output marshal scan intoAny typeError r ho
      rw [h] at hrt
      simp only [Except.ok.injEq, Prod.mk.injEq] at hrt
      obtain ⟨hrt1, _⟩ := hrt
      rw [← hrt1] at hboth
      exact absurd rfl hboth.1
    | some v =>
      refine ⟨by simp, ?_⟩
      cases hm : marshal v with
      | error e =>
        have h : r.roundTrip marshal scan intoAny typeError = Except.error e := by
          simp [ToolResult.roundTrip, ToolResult.encode, ho, hm]
        rw [h] at hrt
        cases hrt
      | ok j =>
        obtain ⟨rt1, err1, hrt1, herr, _, _, _⟩ :=
          roundTrip_output marshal scan intoAny typeError r v j ho hm
        rw [hrt1] at hrt
        simp only [Except.ok.injEq, Prod.mk.injEq] at hrt
        obtain ⟨h1, _⟩ := hrt
        subst h1
        intro he
        rcases herr with h | h
        · exact hboth.2 h
        · rw [he] at h
          exact hboth.2 h

/-- Instances of C18 as amended: the envelope carrying the error `boom`
comes back with output absent and the same message; the envelope whose
output points to 42 comes back with output present and no error; an output
that is NaN makes the round trip fail. -/
theorem roundTrip_discriminant_witness :
    coerceUTF8 (gostr "boom") = gostr "boom" ∧
    boomEnvelope.roundTrip marshalPointer scanNumber numberIntoAny
        fieldTypeError =
      Except.ok
        ({ Name := coerceUTF8 (gostr "lookup"), Output := none,
           Error := some (gostr "boom") }, none) ∧
    (∃ (rt : ToolResult (JSON Nat)) (err : Option GoError),
      pointerEnvelope.roundTrip marshalPointer scanNumber numberIntoAny
          fieldTypeError = Except.ok (rt, err) ∧
      rt.Error = none ∧
      (err = none → (rt.Output ≠ none ↔ JSON.other 42 ≠ JSON.null))) ∧
    nilPointerEnvelope.roundTrip marshalFloat scanNumber bigNumberIntoAny
        fieldTypeError =
      Except.error (GoError.new (gostr "json: unsupported value: NaN")) :=
  ⟨by decide,
    ((roundTrip_discriminant marshalPointer scanNumber numberIntoAny
      fieldTypeError boomEnvelope).2.2.1 (gostr "boom") rfl rfl).2 (by decide),
    (roundTrip_discriminant marshalPointer scanNumber numberIntoAny
      fieldTypeError pointerEnvelope).2.1 (some 42) (JSON.other 42) rfl rfl rfl,
    (roundTrip_discriminant marshalFloat scanNumber bigNumberIntoAny
      fieldTypeError nilPointerEnvelope).1 none
      (GoError.new (gostr "json: unsupported value: NaN")) rfl rfl⟩

end Toolspec
